import Mathlib

set_option autoImplicit false

/-!
Verification of the distributed tridiagonal Laplacian inversion subsystem
(parallel_tri.cxx, 1d_multigrid.cxx, pcr.cxx).  Complex arithmetic of the
source (`dcomplex`) is modelled exactly by `ℂ` and `BoutReal` by `ℝ`; the
MPI communication calls are modelled by explicit received-value arguments,
and external routines (`tridag`) by their defining equations.
-/

/-! ### Global tridiagonal system -/

/-- Row `i` of the global tridiagonal operator applied to `x`: following the
`tridag` convention, the sub-diagonal entry is ignored on row `0` and the
super-diagonal entry on row `N-1`. -/
def triRow (a b c : ℕ → ℂ) (N : ℕ) (x : ℕ → ℂ) (i : ℕ) : ℂ :=
  (if i = 0 then 0 else a i * x (i - 1)) + b i * x i
    + (if i = N - 1 then 0 else c i * x (i + 1))

/-- The function `x` solves the assembled global tridiagonal system of size `N`. -/
def IsGlobalSolution (a b c r : ℕ → ℂ) (N : ℕ) (x : ℕ → ℂ) : Prop :=
  ∀ i, i < N → triRow a b c N x i = r i

/-! ### The reduced (interface) system of LaplaceParallelTri

Rank `p` (of `P` ranks) owns the global rows `bnd p ≤ i < bnd (p+1)`; its
lower halo cell is global index `bnd p - 1` (the last point owned by rank
`p-1`) and its upper halo cell is `bnd (p+1)` (the first point owned by rank
`p+1`).  `mv`, `u` and `l` are the per-rank particular solution `minvb`,
`upperGuardVector` and `lowerGuardVector` of the patched local systems. -/

/-- Converged halo value below rank `p` (`xk1dlast[xstart-1]`); on the first
rank there is no lower neighbour. -/
def edgeLowVal (xi : ℕ → ℂ) (bnd : ℕ → ℕ) (p : ℕ) : ℂ :=
  if p = 0 then 0 else xi (bnd p - 1)

/-- Converged halo value above rank `p` (`xk1dlast[xend+1]`); on the last
rank there is no upper neighbour. -/
def edgeUpVal (P : ℕ) (xi : ℕ → ℂ) (bnd : ℕ → ℕ) (p : ℕ) : ℂ :=
  if p + 1 = P then 0 else xi (bnd (p + 1))

/-- Local reconstruction on rank `p` (parallel_tri.cxx `solve`, the loops
`xk1d[i] = minvb[i]`, `xk1d[i] += upperGuardVector(i)*xk1dlast[xe+1]` when
not on the last rank, `xk1d[i] += lowerGuardVector(i)*xk1dlast[xs-1]` when
not on the first rank), written on global indices. -/
def rankRecon (P : ℕ) (bnd : ℕ → ℕ) (mv u l : ℕ → ℕ → ℂ) (xi : ℕ → ℂ)
    (p i : ℕ) : ℂ :=
  mv p i + (if p + 1 = P then 0 else u p i * edgeUpVal P xi bnd p)
    + (if p = 0 then 0 else l p i * edgeLowVal xi bnd p)

/-- The fixed-point equations of the reduced interface iteration
(`xloc[1] = rl + al*xloclast[0] + bl*xloclast[3]` and
`xloc[2] = ru + au*xloclast[0] + bu*xloclast[3]`, with
`rl = minvb[xs]`, `al = lowerGuardVector(xs)`, `bl = upperGuardVector(xs)`,
`ru = minvb[xe]`, `au = lowerGuardVector(xe)`, `bu = upperGuardVector(xe)`). -/
def IsReducedSolution (P : ℕ) (bnd : ℕ → ℕ) (mv u l : ℕ → ℕ → ℂ)
    (xi : ℕ → ℂ) : Prop :=
  ∀ p, p < P →
    xi (bnd p) = mv p (bnd p) + l p (bnd p) * edgeLowVal xi bnd p
        + u p (bnd p) * edgeUpVal P xi bnd p ∧
    xi (bnd (p + 1) - 1) = mv p (bnd (p + 1) - 1)
        + l p (bnd (p + 1) - 1) * edgeLowVal xi bnd p
        + u p (bnd (p + 1) - 1) * edgeUpVal P xi bnd p

/-! ### Reconstruction of the full local solution (parallel_tri.cxx) -/

/-- The reconstruction loops of `LaplaceParallelTri::solve`: every local index
`i < ncx` is overwritten with `minvb[i]`, then the upper-guard term is added
unless this is the last rank, then the lower-guard term is added unless this
is the first rank.  `prev` is the content of `xk1d` before the loops run. -/
def reconstruct_full_local (firstX lastX : Bool) (ncx : ℕ)
    (minvb uG lG : ℕ → ℂ) (edgeLow edgeUp : ℂ) (prev : ℕ → ℂ) : ℕ → ℂ :=
  fun i =>
    if i < ncx then
      minvb i + (if lastX then 0 else uG i * edgeUp)
        + (if firstX then 0 else lG i * edgeLow)
    else prev i

/-! ### LaplacePCR constructor checks (pcr.cxx) -/

/-- Modelled from the spec: helper for `is_pow2`, repeatedly halving while
even; the first argument is structural fuel (`n` itself suffices). -/
def is_pow2_core : ℕ → ℕ → Bool
  | 0, _ => false
  | _ + 1, 0 => false
  | _ + 1, 1 => true
  | fuel + 1, n + 2 => (n + 2) % 2 == 0 && is_pow2_core fuel ((n + 2) / 2)

/-- Modelled from the spec: the power-of-two test used for the rank count
(`is_pow2` of utils.hxx, which is not part of the staged sources; the spec
requires "rank count not a power of two ... rejected at construction time"). -/
def is_pow2 (n : ℕ) : Bool :=
  is_pow2_core n n

/-- The four configuration errors thrown by the `LaplacePCR` constructor, in
source order. -/
inductive PCRConstructError where
  | nxpeNotPow2
  | nypeNotOne
  | serialRun
  | globalNxNotPow2
deriving DecidableEq

/-- The validation sequence of the `LaplacePCR` constructor: number of X
procs must be a power of 2, number of Y procs must be 1, the solver cannot
run serially, and `GlobalNx - 4` must be a power of 2.  All checks happen in
the constructor, before any call to `solve`. -/
def LaplacePCR_construct (nxpe nype : ℕ) (firstX lastX : Bool)
    (globalNx : ℕ) : Except PCRConstructError Unit :=
  if !is_pow2 nxpe then .error .nxpeNotPow2
  else if nype != 1 then .error .nypeNotOne
  else if firstX && lastX then .error .serialRun
  else if !is_pow2 (globalNx - 4) then .error .globalNxNotPow2
  else .ok ()

/-! ### The loops of `Laplace1DMG::Level::calculate_residual`

The source reads

  for (int kz = 0; kz < l.nmode; kz++)
    if (not l.converged[kz])
      for (int ix = 0; ix < l.nmode; kz++)
        residual(ix, kz) = ...

the inner `for` increments `kz` while its guard tests `ix`, which never
changes. -/

/-- Control state of the nested loops: either at the top of the outer loop
with counter `kz`, or inside the inner loop with counters `ix` and `kz`. -/
inductive CRState where
  | outer (kz : ℕ)
  | inner (ix kz : ℕ)
deriving DecidableEq

/-- One transition of the loop nest; `none` means the routine returned. -/
def crStep (nmode : ℕ) (conv : ℕ → Bool) : CRState → Option CRState
  | .outer kz =>
      if kz < nmode then
        if conv kz then some (.outer (kz + 1)) else some (.inner 0 kz)
      else none
  | .inner ix kz =>
      if ix < nmode then some (.inner ix (kz + 1)) else some (.outer (kz + 1))

/-- The loop nest after `n` transitions, starting at the outer loop with
`kz = 0`; `none` once the routine has returned. -/
def crIter (nmode : ℕ) (conv : ℕ → Bool) : ℕ → Option CRState
  | 0 => some (.outer 0)
  | n + 1 => (crIter nmode conv n).bind (crStep nmode conv)

/-! ### `Laplace1DMG::Level::gauss_seidel_red_black_local` -/

/-- Indices visited by the even sweep `for (int ix = 0; ix < nxlevel; ix += 2)`. -/
def gs_even_sweep_indices (nx : ℕ) : List ℕ :=
  (List.range nx).filter (fun ix => ix % 2 == 0)

/-- Indices visited by the odd sweep `for (int ix = 1; ix < nxlevel; ix += 2)`. -/
def gs_odd_sweep_indices (nx : ℕ) : List ℕ :=
  (List.range nx).filter (fun ix => ix % 2 == 1)

/-- Row indices of `xloc` touched by the two sweeps: each visited `ix`
evaluates `xloc(ix-1, kz)`, `xloc(ix, kz)` and `xloc(ix+1, kz)`. -/
def gs_sweep_xloc_accesses (nx : ℕ) : List ℤ :=
  (gs_even_sweep_indices nx ++ gs_odd_sweep_indices nx).flatMap
    (fun ix => [(ix : ℤ) - 1, (ix : ℤ), (ix : ℤ) + 1])

/-- One update of the sweep at row `ix`:
`xloc(ix,kz) = (rr(ix,kz) - ar(ix,kz)*xloc(ix-1,kz) - cr(ix,kz)*xloc(ix+1,kz))*brinv(ix,kz)`,
acting on one mode's column of `xloc` (indices modelled on `ℤ`, since the
source evaluates `xloc(ix-1, kz)` at `ix = 0`). -/
def gs_relax_row (ar cr brinv rr : ℤ → ℂ) (x : ℤ → ℂ) (ix : ℤ) : ℤ → ℂ :=
  fun j =>
    if j = ix then (rr ix - ar ix * x (ix - 1) - cr ix * x (ix + 1)) * brinv ix
    else x j

/-- The even sweep followed by the odd sweep on one mode's column. -/
def gs_sweep_mode (nx : ℕ) (ar cr brinv rr : ℤ → ℂ) (x : ℤ → ℂ) : ℤ → ℂ :=
  ((gs_even_sweep_indices nx ++ gs_odd_sweep_indices nx).map Int.ofNat).foldl
    (gs_relax_row ar cr brinv rr) x

/-- `gauss_seidel_red_black_local` on the column of mode `kz`: both sweeps
guard every mode with `if (not l.converged[kz])`. -/
def gauss_seidel_red_black_local_mode (nx : ℕ) (conv : ℕ → Bool)
    (ar cr brinv rr : ℕ → ℤ → ℂ) (kz : ℕ) (x : ℤ → ℂ) : ℤ → ℂ :=
  if conv kz then x else gs_sweep_mode nx (ar kz) (cr kz) (brinv kz) (rr kz) x

/-! ### The per-mode iteration loop of `LaplaceParallelTri::solve`

One pass of the `while(true)` loop (the `new_method = false` branch), for a
single Fourier mode.  The reduced coefficients `rl, ru, al, bl, au, bu`, the
tolerances and `maxits` are fixed for the whole loop; the values returned by
`communicateXIn`/`communicateXOut` this pass are supplied in a `TriRecv`. -/

/-- Loop-invariant data of the reduced iteration for one mode. -/
structure TriEnv where
  rl : ℂ
  ru : ℂ
  al : ℂ
  bl : ℂ
  au : ℂ
  bu : ℂ
  rtol : ℝ
  atol : ℝ
  maxits : ℕ

/-- Mutable state of the loop: `xloc`, `xloclast`, the four convergence
flags and the iteration counter. -/
structure TriState where
  x0 : ℂ
  x1 : ℂ
  x2 : ℂ
  x3 : ℂ
  l0 : ℂ
  l1 : ℂ
  l2 : ℂ
  l3 : ℂ
  self_in : Bool
  self_out : Bool
  neighbour_in : Bool
  neighbour_out : Bool
  count : ℕ

/-- Values delivered by the neighbour exchanges of one pass. -/
structure TriRecv where
  inFlag : Bool
  inVal : ℂ
  outFlag : Bool
  outVal : ℂ

/-- Result of one pass: continue iterating, leave the loop converged, or
throw (`dd` records whether the reduced matrix was diagonally dominant).
`sentIn`/`sentOut` are the messages pushed to the two neighbours during the
pass (`none` when no exchange happened in that direction). -/
inductive TriOutcome where
  | next (st : TriState) (sentIn sentOut : Option (Bool × ℂ))
  | done (st : TriState) (sentIn sentOut : Option (Bool × ℂ))
  | fail (dd : Bool)

/-- The helper `get_errors`: absolute error `|x - xlast|` and relative error
`|x - xlast| / |x|`, falling back to the absolute error when `|x| = 0`.
Returned as `(error_rel, error_abs)`, in the source's argument order. -/
noncomputable def get_errors (x xlast : ℂ) : ℝ × ℝ :=
  let error_abs := Complex.abs (x - xlast)
  (if Complex.abs x > 0 then error_abs / Complex.abs x else error_abs, error_abs)

/-- The update `xloc[1] = rl + al*xloclast[0] + bl*xloclast[3]`. -/
def tri_xloc1 (env : TriEnv) (st : TriState) : ℂ :=
  env.rl + env.al * st.l0 + env.bl * st.l3

/-- The update `xloc[2] = ru + au*xloclast[0] + bu*xloclast[3]`. -/
def tri_xloc2 (env : TriEnv) (st : TriState) : ℂ :=
  env.ru + env.au * st.l0 + env.bu * st.l3

/-- The tolerance test of the flag-setting block:
`(error_rel_lower<rtol or error_abs_lower<atol) and
(error_rel_upper<rtol or error_abs_upper<atol)`, with errors taken between
the freshly updated `xloc[1]`, `xloc[2]` and `xloclast[1]`, `xloclast[2]`. -/
noncomputable def TolMet (env : TriEnv) (st : TriState) : Prop :=
  ((get_errors (tri_xloc1 env st) st.l1).1 < env.rtol ∨
      (get_errors (tri_xloc1 env st) st.l1).2 < env.atol) ∧
    ((get_errors (tri_xloc2 env st) st.l2).1 < env.rtol ∨
      (get_errors (tri_xloc2 env st) st.l2).2 < env.atol)

open Classical in
/-- Boolean form of the flag-setting condition `count > 0 && TolMet`. -/
noncomputable def tri_marked (env : TriEnv) (st : TriState) : Bool :=
  decide (0 < st.count) && decide (TolMet env st)

open Classical in
/-- `LaplaceParallelTri::is_diagonally_dominant`: both reduced rows must have
off-diagonal magnitude sum at most 1. -/
noncomputable def pt_is_diagonally_dominant (al au bl bu : ℂ) : Bool :=
  !(decide (Complex.abs al + Complex.abs bl > 1)
      || decide (Complex.abs au + Complex.abs bu > 1))

/-- The message pushed to the in-neighbour during one pass, when that
neighbour has not yet declared convergence: the post-marking flag `self_in`
and the freshly updated `xloc[1]` (`communicateXIn(self_in)` followed by
`communicateXIn(xloc[1])`). -/
noncomputable def tri_sentIn (env : TriEnv) (st : TriState) :
    Option (Bool × ℂ) :=
  if st.neighbour_in then none
  else some (st.self_in || tri_marked env st, tri_xloc1 env st)

/-- The message pushed to the out-neighbour during one pass, when that
neighbour has not yet declared convergence. -/
noncomputable def tri_sentOut (env : TriEnv) (st : TriState) :
    Option (Bool × ℂ) :=
  if st.neighbour_out then none
  else some (st.self_out || tri_marked env st, tri_xloc2 env st)

/-- The state at the `break` of a self-converged pass: updated interface
and halo values, marked self flags, received neighbour flags; `xloclast`
and `count` unchanged (the loop exits before `++count` and the copy). -/
noncomputable def tri_doneState (env : TriEnv) (st : TriState)
    (recv : TriRecv) : TriState :=
  { st with
    x0 := if st.neighbour_in then st.x0 else recv.inVal
    x1 := tri_xloc1 env st
    x2 := tri_xloc2 env st
    x3 := if st.neighbour_out then st.x3 else recv.outVal
    self_in := st.self_in || tri_marked env st
    self_out := st.self_out || tri_marked env st
    neighbour_in := if st.neighbour_in then st.neighbour_in else recv.inFlag
    neighbour_out := if st.neighbour_out then st.neighbour_out else recv.outFlag }

/-- The state handed to the next pass: as `tri_doneState`, but self flags
also inherit neighbour convergence, the counter advances, and `xloc` is
copied to `xloclast`. -/
noncomputable def tri_nextState (env : TriEnv) (st : TriState)
    (recv : TriRecv) : TriState :=
  { x0 := if st.neighbour_in then st.x0 else recv.inVal
    x1 := tri_xloc1 env st
    x2 := tri_xloc2 env st
    x3 := if st.neighbour_out then st.x3 else recv.outVal
    l0 := if st.neighbour_in then st.x0 else recv.inVal
    l1 := tri_xloc1 env st
    l2 := tri_xloc2 env st
    l3 := if st.neighbour_out then st.x3 else recv.outVal
    self_in := (st.self_in || tri_marked env st)
      || (if st.neighbour_in then st.neighbour_in else recv.inFlag)
    self_out := (st.self_out || tri_marked env st)
      || (if st.neighbour_out then st.neighbour_out else recv.outFlag)
    neighbour_in := if st.neighbour_in then st.neighbour_in else recv.inFlag
    neighbour_out := if st.neighbour_out then st.neighbour_out else recv.outFlag
    count := st.count + 1 }

/-- One pass of the `while(true)` loop: update the two interface values,
set the convergence flags when the tolerance test passes after the first
iteration, exchange flag and edge value with each neighbour that has not
yet declared convergence, break once self-converged in both directions,
otherwise inherit neighbour convergence, advance the counter, throw with the
diagonal-dominance classification when `count > maxits`, and finally copy
`xloc` to `xloclast`. -/
noncomputable def triStep (env : TriEnv) (st : TriState) (recv : TriRecv) :
    TriOutcome :=
  if (st.self_in || tri_marked env st) && (st.self_out || tri_marked env st) then
    .done (tri_doneState env st recv) (tri_sentIn env st) (tri_sentOut env st)
  else if env.maxits < st.count + 1 then
    .fail (pt_is_diagonally_dominant env.al env.au env.bl env.bu)
  else
    .next (tri_nextState env st recv) (tri_sentIn env st) (tri_sentOut env st)

/-- State of a whole run of the loop. -/
inductive TriRunResult where
  | running (st : TriState)
  | done (st : TriState)
  | fail (dd : Bool)

/-- Iterating `triStep` from `st0`, with the neighbour messages of pass `n`
given by `recvs n`. -/
noncomputable def triRun (env : TriEnv) (recvs : ℕ → TriRecv) (st0 : TriState) :
    ℕ → TriRunResult
  | 0 => .running st0
  | n + 1 =>
    match triRun env recvs st0 n with
    | .running st =>
      match triStep env st (recvs n) with
      | .next st' _ _ => .running st'
      | .done st' _ _ => .done st'
      | .fail dd => .fail dd
    | r => r

/-! ### The earlier `LaplaceParallelTri::solve` iteration

The first variant of the solver whose loop tail reads
`++count; if (count>maxits) { break; }` — on exhausting the iteration budget
it leaves the loop normally and the current iterate is stored into `xk` and
returned.  The result of the external `tridag` call of the pass is supplied
as `newx`. -/

/-- Mutable state of the early loop: iterate, previous iterate, the four
`imdone` flags (`imdone(xstart)`, `imdone(xend)`, `imdone(xstart-1)`,
`imdone(xend+1)`) and the counter. -/
structure PT0State where
  xk1d : ℕ → ℂ
  xk1dlast : ℕ → ℂ
  selfLow : Bool
  selfHigh : Bool
  neighLow : Bool
  neighHigh : Bool
  count : ℕ

/-- Result of one pass of the early loop: continue, leave converged, or
leave because `count > maxits` (a normal `break`, not an exception). -/
inductive PT0Outcome where
  | next (st : PT0State)
  | doneConverged (st : PT0State)
  | doneBudget (st : PT0State)

/-- Maximum over `ix < ncx` of `|xk1d[ix] - xk1dlast[ix]|`. -/
noncomputable def pt0_error_abs (ncx : ℕ) (x xl : ℕ → ℂ) : ℝ :=
  (List.range ncx).foldl (fun m ix => max m (Complex.abs (x ix - xl ix))) 0

/-- Maximum over `ix < ncx` of `|xk1d[ix]|`. -/
noncomputable def pt0_xmax (ncx : ℕ) (x : ℕ → ℂ) : ℝ :=
  (List.range ncx).foldl (fun m ix => max m (Complex.abs (x ix))) 0

open Classical in
/-- The flag-setting test `error_rel < rtol or error_abs < atol` of the
early loop; note it does not require `count > 0`. -/
noncomputable def pt0_marked (ncx : ℕ) (rtol atol : ℝ) (st : PT0State)
    (newx : ℕ → ℂ) : Bool :=
  decide (pt0_error_abs ncx newx st.xk1dlast / pt0_xmax ncx newx < rtol ∨
    pt0_error_abs ncx newx st.xk1dlast < atol)

/-- The state left by the `break` of the budget branch of the early loop:
the current (partial) iterate is kept and later stored into `xk` and
returned. -/
noncomputable def pt0_budgetState (ncx : ℕ) (rtol atol : ℝ) (st : PT0State)
    (newx : ℕ → ℂ) (recv : TriRecv) : PT0State :=
  { xk1d := newx, xk1dlast := st.xk1dlast
    selfLow := (st.selfLow || pt0_marked ncx rtol atol st newx)
      || (if st.neighLow then st.neighLow else recv.inFlag)
    selfHigh := (st.selfHigh || pt0_marked ncx rtol atol st newx)
      || (if st.neighHigh then st.neighHigh else recv.outFlag)
    neighLow := if st.neighLow then st.neighLow else recv.inFlag
    neighHigh := if st.neighHigh then st.neighHigh else recv.outFlag
    count := st.count + 1 }

/-- The state at the converged `break` of the early loop. -/
noncomputable def pt0_doneState (ncx : ℕ) (rtol atol : ℝ) (st : PT0State)
    (newx : ℕ → ℂ) (recv : TriRecv) : PT0State :=
  { st with
    xk1d := newx
    selfLow := st.selfLow || pt0_marked ncx rtol atol st newx
    selfHigh := st.selfHigh || pt0_marked ncx rtol atol st newx
    neighLow := if st.neighLow then st.neighLow else recv.inFlag
    neighHigh := if st.neighHigh then st.neighHigh else recv.outFlag }

/-- The state handed to the next pass of the early loop. -/
noncomputable def pt0_nextState (ncx : ℕ) (rtol atol : ℝ) (st : PT0State)
    (newx : ℕ → ℂ) (recv : TriRecv) : PT0State :=
  { pt0_budgetState ncx rtol atol st newx recv with xk1dlast := newx }

/-- One pass of the early loop, from the errors computed after the `tridag`
call to the end of the loop body: on `count > maxits` the loop breaks
normally (outcome `doneBudget`) — no exception is raised and no
diagonal-dominance check happens. -/
noncomputable def pt0Step (ncx maxits : ℕ) (rtol atol : ℝ) (st : PT0State)
    (newx : ℕ → ℂ) (recv : TriRecv) : PT0Outcome :=
  if (st.selfHigh || pt0_marked ncx rtol atol st newx)
      && (st.selfLow || pt0_marked ncx rtol atol st newx) then
    .doneConverged (pt0_doneState ncx rtol atol st newx recv)
  else if maxits < st.count + 1 then
    .doneBudget (pt0_budgetState ncx rtol atol st newx recv)
  else
    .next (pt0_nextState ncx rtol atol st newx recv)

/-! ### The `Laplace1DMG::solve` iteration loop

The control flow of the `while (true)` loop: the per-cycle residual check,
the convergence predictor, the level moves of the V-cycle, the exit test and
the iteration-budget error.  The numerical outcome of the collective
residual test for mode `kz` in cycle `cc` is abstracted as `conv_oracle cc
kz`, and the predicted exit cycle computed in the calibration cycles as
`eta_oracle cc`; the scheduling claims hold for every value of these. -/

/-- Per-rank data of the coarsest-level diagonal-dominance check. -/
structure CoarseRank where
  lastX : Bool
  nmode : ℕ
  ar : ℕ → ℕ → ℂ
  br : ℕ → ℕ → ℂ
  cr : ℕ → ℕ → ℂ

/-- `Laplace1DMG::Level::is_diagonally_dominant` on one rank: row 1 is
checked except on the last rank when `max_level > 0`, row 2 is checked on
the last rank only; a row fails when the off-diagonal magnitude sum exceeds
the diagonal magnitude. -/
def coarse_rank_is_dd (max_level : ℕ) (rk : CoarseRank) : Prop :=
  ∀ kz, kz < rk.nmode →
    ((rk.lastX = false ∨ max_level = 0) →
        Complex.abs (rk.ar 1 kz) + Complex.abs (rk.cr 1 kz)
          ≤ Complex.abs (rk.br 1 kz)) ∧
      (rk.lastX = true →
        Complex.abs (rk.ar 2 kz) + Complex.abs (rk.cr 2 kz)
          ≤ Complex.abs (rk.br 2 kz))

/-- The two classified failures after `count > maxits`. -/
inductive MGFailClass where
  | budgetTooLowDD
  | noConvergenceGuarantee
deriving DecidableEq

open Classical in
/-- The classification after `MPI_Allreduce(..., MPI_LAND, ...)` of the
per-rank checks: a configuration error (budget too low) when every rank is
diagonally dominant, otherwise a no-convergence-guarantee error. -/
noncomputable def mg_classify (max_level : ℕ) (ranks : List CoarseRank) :
    MGFailClass :=
  if ∀ rk ∈ ranks, coarse_rank_is_dd max_level rk then .budgetTooLowDD
  else .noConvergenceGuarantee

/-- Fixed data of the multigrid solve loop. -/
structure MGEnv where
  maxits : ℕ
  max_cycle : ℕ
  max_level : ℕ
  nmode : ℕ
  predict_exit : Bool
  ranks : List CoarseRank
  conv_oracle : ℕ → ℕ → Bool
  eta_oracle : ℕ → ℤ

/-- Mutable control state of the loop. -/
structure MGState where
  count : ℕ
  subcount : ℕ
  cyclecount : ℕ
  cycle_eta : ℤ
  level : ℕ
  down : Bool
  conv : ℕ → Bool

/-- The state on entering the loop: all counters zero, finest level,
descending, every mode unconverged. -/
def mgInit : MGState :=
  { count := 0, subcount := 0, cyclecount := 0, cycle_eta := 0
    level := 0, down := true, conv := fun _ => false }

/-- `all(converged)` over the `nmode` modes. -/
def mg_all_converged (nmode : ℕ) (conv : ℕ → Bool) : Bool :=
  (List.range nmode).all conv

/-- The loop pass is at the per-cycle residual point: finest level and
`subcount == max_cycle - 1`. -/
def mg_check_point (env : MGEnv) (st : MGState) : Prop :=
  st.level = 0 ∧ st.subcount = env.max_cycle - 1

open Classical in
/-- The value of `cyclecount` seen by the residual block of this pass:
incremented at a check point, untouched elsewhere. -/
noncomputable def mg_cc (env : MGEnv) (st : MGState) : ℕ :=
  if mg_check_point env st then st.cyclecount + 1 else st.cyclecount

/-- The full (collective) convergence check (`calculate_total_residual`)
runs this pass: at a check point with
`cyclecount < 3 or cyclecount > cycle_eta - 5 or not predict_exit`. -/
def mg_full_check_runs (env : MGEnv) (st : MGState) : Prop :=
  mg_check_point env st ∧
    (mg_cc env st < 3 ∨ ((mg_cc env st : ℤ) > st.cycle_eta - 5) ∨
      env.predict_exit = false)

open Classical in
/-- The converged flags after the residual block of this pass: a full check
marks every mode whose (abstracted) residual test passes; modes already
converged stay converged; without a full check nothing changes. -/
noncomputable def mg_conv_after (env : MGEnv) (st : MGState) : ℕ → Bool :=
  if mg_full_check_runs env st then
    fun kz => st.conv kz || env.conv_oracle (mg_cc env st) kz
  else st.conv

open Classical in
/-- The predicted-exit cycle after this pass: recomputed (abstracted as
`eta_oracle`) in the calibration cycles when prediction is enabled. -/
noncomputable def mg_eta_after (env : MGEnv) (st : MGState) : ℤ :=
  if mg_full_check_runs env st ∧ mg_cc env st < 3 ∧ env.predict_exit = true then
    env.eta_oracle (mg_cc env st)
  else st.cycle_eta

/-- Result of one pass: continue, leave the loop with the converged flags
(the `break` of a fully converged finest-level cycle), or throw with the
diagonal-dominance classification. -/
inductive MGOutcome where
  | next (st : MGState)
  | finished (conv : ℕ → Bool)
  | fail (cls : MGFailClass)

open Classical in
/-- The end of the loop body: `if (count > maxits) throw ...`. -/
noncomputable def mgTail (env : MGEnv) (st : MGState) : MGOutcome :=
  if env.maxits < st.count then .fail (mg_classify env.max_level env.ranks)
  else .next st

open Classical in
/-- One pass of the `while (true)` loop of `Laplace1DMG::solve`: the
residual block, the counter increments, the `if/else if` chain moving
between levels with the convergence `break`, and the budget check. -/
noncomputable def mgStep (env : MGEnv) (st : MGState) : MGOutcome :=
  if st.subcount + 1 < env.max_cycle then
    mgTail env { st with
      count := st.count + 1, subcount := st.subcount + 1
      cyclecount := mg_cc env st, cycle_eta := mg_eta_after env st
      conv := mg_conv_after env st }
  else if mg_all_converged env.nmode (mg_conv_after env st) = true ∧
      st.level = 0 then
    .finished (mg_conv_after env st)
  else if st.down = false then
    mgTail env
      { count := st.count + 1, subcount := 0, cyclecount := mg_cc env st
        cycle_eta := mg_eta_after env st, level := st.level - 1
        down := if st.level - 1 = 0 then true else st.down
        conv := mg_conv_after env st }
  else if st.down = true ∧ 0 < env.max_level then
    mgTail env
      { count := st.count + 1, subcount := 0, cyclecount := mg_cc env st
        cycle_eta := mg_eta_after env st, level := st.level + 1
        down := if st.level + 1 = env.max_level then false else st.down
        conv := mg_conv_after env st }
  else
    mgTail env { st with
      count := st.count + 1, subcount := 0, cyclecount := mg_cc env st
      cycle_eta := mg_eta_after env st, conv := mg_conv_after env st }

/-! ### Concrete fixtures used by the witnesses -/

/-- A reduced system with all coefficients zero and the default options
`rtol = 1e-7`, `atol = 1e-20`, `maxits = 100`. -/
noncomputable def triEnv0 : TriEnv :=
  { rl := 0, ru := 0, al := 0, bl := 0, au := 0, bu := 0
    rtol := 1e-7, atol := 1e-20, maxits := 100 }

/-- The all-zero, all-unconverged loop state at `count = 0`. -/
noncomputable def triState0 : TriState :=
  { x0 := 0, x1 := 0, x2 := 0, x3 := 0, l0 := 0, l1 := 0, l2 := 0, l3 := 0
    self_in := false, self_out := false
    neighbour_in := false, neighbour_out := false, count := 0 }

/-- The all-zero loop state at `count = 1`. -/
noncomputable def triState1 : TriState :=
  { triState0 with count := 1 }

/-- The all-zero, all-unconverged state of the early loop. -/
noncomputable def pt0State0 : PT0State :=
  { xk1d := fun _ => 0, xk1dlast := fun _ => 0
    selfLow := false, selfHigh := false
    neighLow := false, neighHigh := false, count := 0 }

/-- A one-mode multigrid configuration with `maxits = 0`, a single level
and no ranks contributing to the dominance check. -/
def mgEnvW : MGEnv :=
  { maxits := 0, max_cycle := 3, max_level := 0, nmode := 1
    predict_exit := false, ranks := []
    conv_oracle := fun _ _ => false, eta_oracle := fun _ => 0 }

/-- A neighbour exchange delivering unconverged flags and zero values. -/
noncomputable def triRecv0 : TriRecv :=
  { inFlag := false, inVal := 0, outFlag := false, outVal := 0 }

/-- State of a whole run of the multigrid loop. -/
inductive MGRunResult where
  | running (st : MGState)
  | finished (conv : ℕ → Bool)
  | failed (cls : MGFailClass)

/-- Folding one `mgStep` into the run state. -/
noncomputable def mgRunStep (env : MGEnv) (r : MGRunResult) : MGRunResult :=
  match r with
  | .running st =>
    match mgStep env st with
    | .next st' => .running st'
    | .finished c => .finished c
    | .fail cls => .failed cls
  | r => r

/-- Iterating `mgStep` from the entry state. -/
noncomputable def mgRun (env : MGEnv) : ℕ → MGRunResult
  | 0 => .running mgInit
  | n + 1 => mgRunStep env (mgRun env n)

/-! ## Theorems -/

/-! ### The reduction to the interface system is exact -/

/-- Linearity of a tridiagonal row in the argument function. -/
theorem triRow_linear (a b c : ℕ → ℂ) (N : ℕ) (f g h : ℕ → ℂ) (s t : ℂ)
    (i : ℕ) :
    triRow a b c N (fun j => f j + s * g j + t * h j) i
      = triRow a b c N f i + s * triRow a b c N g i + t * triRow a b c N h i := by
  unfold triRow
  split <;> split <;> ring

/-- A tridiagonal row only reads the argument at `i-1`, `i` and `i+1`. -/
theorem triRow_congr (a b c : ℕ → ℂ) (N : ℕ) (f g : ℕ → ℂ) (i : ℕ)
    (h0 : i ≠ 0 → f (i - 1) = g (i - 1)) (h1 : f i = g i)
    (h2 : i ≠ N - 1 → f (i + 1) = g (i + 1)) :
    triRow a b c N f i = triRow a b c N g i := by
  unfold triRow
  have e0 : (if i = 0 then (0 : ℂ) else a i * f (i - 1))
      = (if i = 0 then 0 else a i * g (i - 1)) := by
    rcases eq_or_ne i 0 with h | h
    · simp [h]
    · simp [h, h0 h]
  have e2 : (if i = N - 1 then (0 : ℂ) else c i * f (i + 1))
      = (if i = N - 1 then 0 else c i * g (i + 1)) := by
    rcases eq_or_ne i (N - 1) with h | h
    · simp [h]
    · simp [h, h2 h]
  rw [e0, e2, h1]

/-- The tridiagonal row of the zero function vanishes. -/
theorem triRow_zero (a b c : ℕ → ℂ) (N i : ℕ) :
    triRow a b c N (fun _ => 0) i = 0 := by
  unfold triRow
  split <;> split <;> ring

/-- Every global index below `bnd P` is owned by some rank. -/
theorem exists_owner (bnd : ℕ → ℕ) (P i : ℕ) (hb0 : bnd 0 = 0)
    (hi : i < bnd P) :
    ∃ p, p < P ∧ bnd p ≤ i ∧ i < bnd (p + 1) := by
  induction P with
  | zero => omega
  | succ P ih =>
    by_cases hP : i < bnd P
    · obtain ⟨p, hp, h1, h2⟩ := ih hP
      exact ⟨p, Nat.lt_succ_of_lt hp, h1, h2⟩
    · exact ⟨P, Nat.lt_succ_self P, Nat.le_of_not_lt hP, hi⟩

/-- On the last rank the upper edge value is the convention `0`. -/
theorem edgeUpVal_last (P : ℕ) (xi : ℕ → ℂ) (bnd : ℕ → ℕ) (p : ℕ)
    (h : p + 1 = P) : edgeUpVal P xi bnd p = 0 := by
  unfold edgeUpVal
  rw [if_pos h]

/-- On the first rank the lower edge value is the convention `0`. -/
theorem edgeLowVal_first (xi : ℕ → ℂ) (bnd : ℕ → ℕ) (p : ℕ)
    (h : p = 0) : edgeLowVal xi bnd p = 0 := by
  unfold edgeLowVal
  rw [if_pos h]

/-- The guarded reconstruction formula, without the guards: the skipped
terms vanish through the edge-value conventions. -/
theorem rankRecon_eq (P : ℕ) (bnd : ℕ → ℕ) (mv u l : ℕ → ℕ → ℂ)
    (xi : ℕ → ℂ) (p i : ℕ) :
    rankRecon P bnd mv u l xi p i
      = mv p i + edgeUpVal P xi bnd p * u p i + edgeLowVal xi bnd p * l p i := by
  unfold rankRecon
  rcases eq_or_ne (p + 1) P with h1 | h1 <;> rcases eq_or_ne p 0 with h2 | h2
  · rw [if_pos h1, if_pos h2, edgeUpVal_last P xi bnd p h1,
      edgeLowVal_first xi bnd p h2]
    ring
  · rw [if_pos h1, if_neg h2, edgeUpVal_last P xi bnd p h1]
    ring
  · rw [if_neg h1, if_pos h2, edgeLowVal_first xi bnd p h2]
    ring
  · rw [if_neg h1, if_neg h2]
    ring

/-- C1: solving the reduced interface system exactly and reconstructing the
interior with the guard vectors yields a solution of the assembled global
tridiagonal system, and hence (when the global system has a unique
solution) the same answer as a direct single-rank solve, for any number of
ranks `P ≥ 1`; the reduction introduces no approximation.  The hypotheses
state that `minvb` and the two guard vectors solve the patched local
systems exactly (the defining equations of the `tridag` calls), that `xi`
solves the reduced system, and that `X` is the rank-wise reconstruction. -/
theorem reduced_system_solve_matches_direct_solve
    (a b c r : ℕ → ℂ) (N P : ℕ) (bnd : ℕ → ℕ)
    (mv u l : ℕ → ℕ → ℂ) (xi X xg : ℕ → ℂ)
    (hb0 : bnd 0 = 0) (hbP : bnd P = N)
    (hmono : ∀ p, p < P → bnd p < bnd (p + 1))
    (hmv : ∀ p, p < P → ∀ i, bnd p ≤ i → i < bnd (p + 1) →
      triRow a b c N (mv p) i = r i)
    (hmv_lo : ∀ p, p < P → 0 < p → mv p (bnd p - 1) = 0)
    (hmv_hi : ∀ p, p < P → p + 1 < P → mv p (bnd (p + 1)) = 0)
    (hu : ∀ p, p < P → p + 1 < P → ∀ i, bnd p ≤ i → i < bnd (p + 1) →
      triRow a b c N (u p) i = 0)
    (hu_hi : ∀ p, p < P → p + 1 < P → u p (bnd (p + 1)) = 1)
    (hu_lo : ∀ p, p < P → p + 1 < P → 0 < p → u p (bnd p - 1) = 0)
    (hu_last : ∀ p, p + 1 = P → ∀ i, u p i = 0)
    (hl : ∀ p, p < P → 0 < p → ∀ i, bnd p ≤ i → i < bnd (p + 1) →
      triRow a b c N (l p) i = 0)
    (hl_lo : ∀ p, p < P → 0 < p → l p (bnd p - 1) = 1)
    (hl_hi : ∀ p, p < P → 0 < p → p + 1 < P → l p (bnd (p + 1)) = 0)
    (hl_first : ∀ i, l 0 i = 0)
    (hxi : IsReducedSolution P bnd mv u l xi)
    (hX : ∀ p, p < P → ∀ i, bnd p ≤ i → i < bnd (p + 1) →
      X i = rankRecon P bnd mv u l xi p i)
    (huniq : ∀ y, IsGlobalSolution a b c r N y → ∀ i, i < N → y i = xg i) :
    IsGlobalSolution a b c r N X ∧ (∀ i, i < N → X i = xg i) ∧
      ∀ p, p < P →
        X (bnd p) = xi (bnd p) ∧ X (bnd (p + 1) - 1) = xi (bnd (p + 1) - 1) := by
  have hXF : ∀ p, p < P → ∀ j, bnd p ≤ j → j < bnd (p + 1) →
      X j = mv p j + edgeUpVal P xi bnd p * u p j
        + edgeLowVal xi bnd p * l p j := by
    intro p hp j h1 h2
    rw [hX p hp j h1 h2, rankRecon_eq]
  have hedges : ∀ p, p < P →
      X (bnd p) = xi (bnd p) ∧ X (bnd (p + 1) - 1) = xi (bnd (p + 1) - 1) := by
    intro p hp
    have hb := hmono p hp
    constructor
    · rw [hXF p hp (bnd p) le_rfl hb]
      have h := (hxi p hp).1
      linear_combination -h
    · rw [hXF p hp (bnd (p + 1) - 1) (by omega) (by omega)]
      have h := (hxi p hp).2
      linear_combination -h
  have hFlow : ∀ p, p < P → 0 < p →
      mv p (bnd p - 1) + edgeUpVal P xi bnd p * u p (bnd p - 1)
        + edgeLowVal xi bnd p * l p (bnd p - 1) = xi (bnd p - 1) := by
    intro p hp hp0
    have hu0 : u p (bnd p - 1) = 0 := by
      rcases Nat.lt_or_ge (p + 1) P with h | h
      · exact hu_lo p hp h hp0
      · exact hu_last p (by omega) _
    rw [hmv_lo p hp hp0, hu0, hl_lo p hp hp0]
    unfold edgeLowVal
    rw [if_neg (by omega : ¬p = 0)]
    ring
  have hFhigh : ∀ p, p < P → p + 1 < P →
      mv p (bnd (p + 1)) + edgeUpVal P xi bnd p * u p (bnd (p + 1))
        + edgeLowVal xi bnd p * l p (bnd (p + 1)) = xi (bnd (p + 1)) := by
    intro p hp hpP
    have hl0 : l p (bnd (p + 1)) = 0 := by
      rcases Nat.eq_zero_or_pos p with h | h
      · subst h; exact hl_first _
      · exact hl_hi p hp h hpP
    rw [hmv_hi p hp hpP, hu_hi p hp hpP, hl0]
    unfold edgeUpVal
    rw [if_neg (by omega : ¬p + 1 = P)]
    ring
  have hXlow : ∀ p, p < P → 0 < p → X (bnd p - 1) = xi (bnd p - 1) := by
    intro p hp hp0
    have hp1 : p - 1 < P := by omega
    have h1eq : p - 1 + 1 = p := by omega
    have hb1 : bnd (p - 1) < bnd p := by
      have h' := hmono (p - 1) hp1
      rwa [h1eq] at h'
    have hX1 := hXF (p - 1) hp1 (bnd p - 1) (by omega) (by rw [h1eq]; omega)
    have h := (hxi (p - 1) hp1).2
    rw [h1eq] at h
    rw [hX1]
    linear_combination -h
  have hXhigh : ∀ p, p < P → p + 1 < P → X (bnd (p + 1)) = xi (bnd (p + 1)) := by
    intro p hp hpP
    have hX1 := hXF (p + 1) hpP (bnd (p + 1)) le_rfl (hmono (p + 1) hpP)
    have h := (hxi (p + 1) hpP).1
    rw [hX1]
    linear_combination -h
  have hsol : IsGlobalSolution a b c r N X := by
    intro i hiN
    have hiP : i < bnd P := by rw [hbP]; exact hiN
    obtain ⟨p, hpP, hp1, hp2⟩ := exists_owner bnd P i hb0 hiP
    have hrow : triRow a b c N X i
        = triRow a b c N (fun j => mv p j + edgeUpVal P xi bnd p * u p j
            + edgeLowVal xi bnd p * l p j) i := by
      apply triRow_congr
      · intro hi0
        by_cases hlo : bnd p ≤ i - 1
        · exact hXF p hpP (i - 1) hlo (by omega)
        · have hieq : i = bnd p := by omega
          have hp0 : 0 < p := by
            rcases Nat.eq_zero_or_pos p with h | h
            · exfalso
              apply hi0
              rw [hieq, h, hb0]
            · exact h
          have hsub : i - 1 = bnd p - 1 := by omega
          rw [hsub, hXlow p hpP hp0]
          exact (hFlow p hpP hp0).symm
      · exact hXF p hpP i hp1 hp2
      · intro hiN1
        by_cases hhi : i + 1 < bnd (p + 1)
        · exact hXF p hpP (i + 1) (by omega) hhi
        · have hieq : i + 1 = bnd (p + 1) := by omega
          have hpP1 : p + 1 < P := by
            by_contra hcon
            have hP1 : p + 1 = P := by omega
            rw [hP1, hbP] at hieq
            exact hiN1 (by omega)
          rw [hieq, hXhigh p hpP hpP1]
          exact (hFhigh p hpP hpP1).symm
    rw [hrow, triRow_linear]
    have hu0 : triRow a b c N (u p) i = 0 := by
      rcases Nat.lt_or_ge (p + 1) P with h | h
      · exact hu p hpP h i hp1 hp2
      · have : u p = fun _ => 0 := funext (hu_last p (by omega))
        rw [this, triRow_zero]
    have hl0 : triRow a b c N (l p) i = 0 := by
      rcases Nat.eq_zero_or_pos p with h | h
      · subst h
        have : l 0 = fun _ => 0 := funext hl_first
        rw [this, triRow_zero]
      · exact hl p hpP h i hp1 hp2
    rw [hmv p hpP i hp1 hp2, hu0, hl0]
    ring
  exact ⟨hsol, fun i hi => huniq X hsol i hi, hedges⟩

/-- Witness for C1: two global points, one rank, identity matrix,
right-hand side `r i = i`. -/
theorem reduced_system_solve_matches_direct_solve_witness :
    IsReducedSolution 1 (fun p => 2 * p) (fun _ i => (i : ℂ)) (fun _ _ => 0)
        (fun _ _ => 0) (fun i : ℕ => (i : ℂ)) ∧
      (IsGlobalSolution (fun _ => 0) (fun _ => 1) (fun _ => 0) (fun i : ℕ => (i : ℂ))
          2 (fun i : ℕ => (i : ℂ)) ∧
        (∀ i, i < 2 → (fun i : ℕ => (i : ℂ)) i = (fun i : ℕ => (i : ℂ)) i) ∧
        ∀ p, p < 1 →
          (fun i : ℕ => (i : ℂ)) ((fun p : ℕ => 2 * p) p)
              = (fun i : ℕ => (i : ℂ)) ((fun p : ℕ => 2 * p) p) ∧
            (fun i : ℕ => (i : ℂ)) ((fun p : ℕ => 2 * p) (p + 1) - 1)
              = (fun i : ℕ => (i : ℂ)) ((fun p : ℕ => 2 * p) (p + 1) - 1)) := by
  have hxi : IsReducedSolution 1 (fun p => 2 * p) (fun _ i => (i : ℂ))
      (fun _ _ => 0) (fun _ _ => 0) (fun i : ℕ => (i : ℂ)) := by
    intro p hp
    have hp0 : p = 0 := by omega
    subst hp0
    constructor <;> norm_num [edgeLowVal, edgeUpVal]
  refine ⟨hxi, ?_⟩
  refine reduced_system_solve_matches_direct_solve (fun _ => 0) (fun _ => 1)
    (fun _ => 0) (fun i : ℕ => (i : ℂ)) 2 1 (fun p => 2 * p) (fun _ i => (i : ℂ))
    (fun _ _ => 0) (fun _ _ => 0) (fun i : ℕ => (i : ℂ)) (fun i : ℕ => (i : ℂ))
    (fun i : ℕ => (i : ℂ)) rfl rfl ?_ ?_ ?_ ?_ ?_ ?_ ?_ ?_ ?_ ?_ ?_ ?_ hxi ?_ ?_
  · intro p _
    show 2 * p < 2 * (p + 1)
    omega
  · intro p _ i _ _
    simp [triRow]
  · intro p hp h0
    exact absurd h0 (by omega)
  · intro p hp hcon
    exact absurd hcon (by omega)
  · intro p hp hcon
    exact absurd hcon (by omega)
  · intro p hp hcon
    exact absurd hcon (by omega)
  · intro p hp hcon
    exact absurd hcon (by omega)
  · intro p _ i
    rfl
  · intro p hp h0
    exact absurd h0 (by omega)
  · intro p hp h0
    exact absurd h0 (by omega)
  · intro p hp h0 hcon
    exact absurd hcon (by omega)
  · intro i
    rfl
  · intro p hp i _ _
    have hp0 : p = 0 := by omega
    subst hp0
    simp [rankRecon]
  · intro y hy i hi
    have h := hy i hi
    simp [triRow] at h
    exact h

/-! ### Reconstruction (claims about `SolutionReconstructor`) -/

/-- C2: for every mode, given the halo-cell values at `xstart-1` and
`xend+1`, the reconstructed local solution equals
`particular_solution + lower_guard_vector * edge_low + upper_guard_vector * edge_up`
at every local index; on the first rank the lower-guard term is absent (the
lower guard vector is identically zero there) and on the last rank the
upper-guard term is absent. -/
theorem reconstruction_is_particular_plus_guard_terms
    (firstX lastX : Bool) (ncx : ℕ) (minvb uG lG : ℕ → ℂ)
    (edgeLow edgeUp : ℂ) (prev : ℕ → ℂ)
    (hu : lastX = true → ∀ i, uG i = 0)
    (hl : firstX = true → ∀ i, lG i = 0) :
    ∀ i, i < ncx →
      reconstruct_full_local firstX lastX ncx minvb uG lG edgeLow edgeUp prev i
          = minvb i + uG i * edgeUp + lG i * edgeLow ∧
        (firstX = true →
          reconstruct_full_local firstX lastX ncx minvb uG lG edgeLow edgeUp prev i
            = minvb i + uG i * edgeUp) ∧
        (lastX = true →
          reconstruct_full_local firstX lastX ncx minvb uG lG edgeLow edgeUp prev i
            = minvb i + lG i * edgeLow) := by
  intro i hi
  unfold reconstruct_full_local
  rw [if_pos hi]
  cases hF : firstX <;> cases hL : lastX <;> simp_all

/-- C8: the reconstruction loops are a deterministic function of the
particular solution, the guard vectors and the edge values; running them a
second time (over the result of the first run) yields the identical result,
with no dependence on the previous content of `xk1d`. -/
theorem reconstruction_idempotent (firstX lastX : Bool) (ncx : ℕ)
    (minvb uG lG : ℕ → ℂ) (edgeLow edgeUp : ℂ) (v : ℕ → ℂ) :
    reconstruct_full_local firstX lastX ncx minvb uG lG edgeLow edgeUp
        (reconstruct_full_local firstX lastX ncx minvb uG lG edgeLow edgeUp v)
      = reconstruct_full_local firstX lastX ncx minvb uG lG edgeLow edgeUp v := by
  funext i
  unfold reconstruct_full_local
  by_cases hi : i < ncx <;> simp [hi]

/-- Witness for C2 at a concrete input. -/
theorem reconstruction_is_particular_plus_guard_terms_witness :
    ((false : Bool) = true → ∀ i : ℕ, (fun _ : ℕ => (2 : ℂ)) i = 0) ∧
      ((true : Bool) = true → ∀ i : ℕ, (fun _ : ℕ => (0 : ℂ)) i = 0) ∧
      (∀ i, i < 1 →
        reconstruct_full_local true false 1 (fun _ => 1) (fun _ => 2)
            (fun _ => 0) 5 7 (fun _ => 9) i
            = (fun _ : ℕ => (1 : ℂ)) i + (fun _ : ℕ => (2 : ℂ)) i * 7
              + (fun _ : ℕ => (0 : ℂ)) i * 5 ∧
          ((true : Bool) = true →
            reconstruct_full_local true false 1 (fun _ => 1) (fun _ => 2)
                (fun _ => 0) 5 7 (fun _ => 9) i
              = (fun _ : ℕ => (1 : ℂ)) i + (fun _ : ℕ => (2 : ℂ)) i * 7) ∧
          ((false : Bool) = true →
            reconstruct_full_local true false 1 (fun _ => 1) (fun _ => 2)
                (fun _ => 0) 5 7 (fun _ => 9) i
              = (fun _ : ℕ => (1 : ℂ)) i + (fun _ : ℕ => (0 : ℂ)) i * 5)) :=
  ⟨fun h => by simp at h, fun _ i => rfl,
    reconstruction_is_particular_plus_guard_terms true false 1
      (fun _ => 1) (fun _ => 2) (fun _ => 0) 5 7 (fun _ => 9)
      (fun h => by simp at h) (fun _ i => rfl)⟩

/-! ### LaplacePCR configuration rejection -/

/-- C5: when the cyclic-reduction strategy is selected, an x-rank count that
is not a power of two, or more than one rank along the y direction, makes
the constructor throw, before any call to `solve`. -/
theorem pcr_invalid_config_rejected_at_construction
    (nxpe nype : ℕ) (firstX lastX : Bool) (globalNx : ℕ)
    (h : is_pow2 nxpe = false ∨ 1 < nype) :
    ∃ e, LaplacePCR_construct nxpe nype firstX lastX globalNx = .error e := by
  unfold LaplacePCR_construct
  rcases h with h | h
  · exact ⟨.nxpeNotPow2, by rw [h]; rfl⟩
  · by_cases hp : is_pow2 nxpe
    · refine ⟨.nypeNotOne, ?_⟩
      rw [hp]
      have : (nype != 1) = true := by
        simp only [bne_iff_ne, ne_eq]
        omega
      simp [this]
    · exact ⟨.nxpeNotPow2, by simp [hp]⟩

/-- Witness for C5 at a concrete input. -/
theorem pcr_invalid_config_rejected_at_construction_witness :
    (is_pow2 3 = false ∨ 1 < 1) ∧
      ∃ e, LaplacePCR_construct 3 1 false false 8 = .error e :=
  ⟨Or.inl rfl,
    pcr_invalid_config_rejected_at_construction 3 1 false false 8 (Or.inl rfl)⟩

/-! ### Non-termination of `calculate_residual` -/

/-- Every reachable state of the loop nest keeps the routine from returning:
the outer counter only passes converged modes, and inside the inner loop
`ix` stays `0` forever because the increment of the inner `for` bumps `kz`. -/
theorem crIter_invariant (nmode : ℕ) (conv : ℕ → Bool) (k : ℕ)
    (hk : k < nmode) (hkc : conv k = false) :
    ∀ n, ∃ st, crIter nmode conv n = some st ∧
      (match st with
       | .outer kz => ∀ j, j < kz → conv j = true
       | .inner ix _ => ix = 0) := by
  intro n
  induction n with
  | zero => exact ⟨.outer 0, rfl, by intro j hj; omega⟩
  | succ n ih =>
    obtain ⟨st, hst, hinv⟩ := ih
    rw [crIter, hst, Option.some_bind]
    cases st with
    | outer kz =>
      have hlt : kz < nmode := by
        by_contra hge
        have : conv k = true := hinv k (by omega)
        rw [hkc] at this
        exact Bool.false_ne_true this
      cases hc : conv kz with
      | true =>
        refine ⟨.outer (kz + 1), by simp [crStep, hlt, hc], ?_⟩
        intro j hj
        rcases Nat.lt_succ_iff_lt_or_eq.mp hj with hj' | hj'
        · exact hinv j hj'
        · rw [hj']; exact hc
      | false =>
        exact ⟨.inner 0 kz, by simp [crStep, hlt, hc], rfl⟩
    | inner ix kz =>
      have hx : ix = 0 := hinv
      subst hx
      exact ⟨.inner 0 (kz + 1), by simp [crStep]; omega, rfl⟩

/-- C9: with `nmode > 0` and at least one unconverged mode, the loop nest of
`Laplace1DMG::Level::calculate_residual` never returns: its inner `for`
statement increments `kz` while testing `ix < nmode`, so the guard never
becomes false.  This contradicts the claimed termination (and the claimed
one-visit-per-grid-point behaviour). -/
theorem calculate_residual_never_terminates (nmode : ℕ) (conv : ℕ → Bool)
    (h : ∃ k, k < nmode ∧ conv k = false) :
    ∀ n, crIter nmode conv n ≠ none := by
  obtain ⟨k, hk, hkc⟩ := h
  intro n
  obtain ⟨st, hst, -⟩ := crIter_invariant nmode conv k hk hkc n
  rw [hst]
  exact Option.some_ne_none st

/-- Witness for C9 at a concrete input. -/
theorem calculate_residual_never_terminates_witness :
    (∃ k, k < 1 ∧ (fun _ : ℕ => false) k = false) ∧
      ∀ n, crIter 1 (fun _ => false) n ≠ none :=
  ⟨⟨0, Nat.zero_lt_one, rfl⟩,
    calculate_residual_never_terminates 1 (fun _ => false)
      ⟨0, Nat.zero_lt_one, rfl⟩⟩

/-! ### Out-of-bounds read in `gauss_seidel_red_black_local` -/

/-- C10: the even sweep starts at `ix = 0` and evaluates `xloc(ix-1, kz)`,
so row index `-1` of `xloc` is read, which is outside the allocated bounds
`0 ≤ index < LocalNx + 2` of `xloc = Matrix(ncx+2, nmode)`.  This refutes
the claimed in-bounds property. -/
theorem gs_even_sweep_reads_out_of_bounds (nx : ℕ) (h : 0 < nx) :
    (-1 : ℤ) ∈ gs_sweep_xloc_accesses nx ∧
      ¬(0 ≤ (-1 : ℤ) ∧ (-1 : ℤ) < (nx : ℤ) + 2) := by
  constructor
  · unfold gs_sweep_xloc_accesses
    have h0 : (0 : ℕ) ∈ gs_even_sweep_indices nx ++ gs_odd_sweep_indices nx := by
      refine List.mem_append.mpr (Or.inl ?_)
      unfold gs_even_sweep_indices
      simp [List.mem_filter, List.mem_range, h]
    refine List.mem_flatMap.mpr ⟨0, h0, ?_⟩
    simp
  · simp

/-- Witness for C10 at a concrete input. -/
theorem gs_even_sweep_reads_out_of_bounds_witness :
    0 < 4 ∧
      ((-1 : ℤ) ∈ gs_sweep_xloc_accesses 4 ∧
        ¬(0 ≤ (-1 : ℤ) ∧ (-1 : ℤ) < (4 : ℤ) + 2)) :=
  ⟨Nat.zero_lt_succ 3, gs_even_sweep_reads_out_of_bounds 4 (by omega)⟩

/-! ### Convergence marking in the reduced iteration -/

/-- The flag-setting condition in Boolean and propositional form. -/
theorem tri_marked_iff (env : TriEnv) (st : TriState) :
    tri_marked env st = true ↔ 0 < st.count ∧ TolMet env st := by
  simp [tri_marked]

/-- C4 (amended): in the reduced iteration a mode is marked converged — and
the loop then exits with its interface values frozen at the just-computed
update — exactly when the iteration count is positive and the tolerance
test `error_abs < atol OR error_rel < rtol` passes at both the lower and
the upper interface; at `count = 0` the mode is never marked.  Moreover, in
the multigrid solver a converged mode's column is not touched by the
relaxation sweeps. -/
theorem convergence_marking_criterion (env : TriEnv) (st : TriState)
    (recv : TriRecv) (hsi : st.self_in = false) (hso : st.self_out = false) :
    ((∃ st' sIn sOut, triStep env st recv = .done st' sIn sOut) ↔
        0 < st.count ∧ TolMet env st) ∧
      (∀ st' sIn sOut, triStep env st recv = .done st' sIn sOut →
        st'.x1 = tri_xloc1 env st ∧ st'.x2 = tri_xloc2 env st ∧
          st'.count = st.count) ∧
      ∀ (nx : ℕ) (conv : ℕ → Bool) (ar cr brinv rr : ℕ → ℤ → ℂ) (kz : ℕ)
        (x : ℤ → ℂ), conv kz = true →
        gauss_seidel_red_black_local_mode nx conv ar cr brinv rr kz x = x := by
  refine ⟨?_, ?_, ?_⟩
  · rw [← tri_marked_iff]
    constructor
    · rintro ⟨st', sIn, sOut, hdone⟩
      cases hm : tri_marked env st
      · exfalso
        unfold triStep at hdone
        rw [hsi, hso, hm] at hdone
        simp only [Bool.false_or, Bool.and_self, Bool.false_eq_true,
          if_false] at hdone
        split at hdone <;> simp at hdone
      · rfl
    · intro hm
      refine ⟨tri_doneState env st recv, tri_sentIn env st,
        tri_sentOut env st, ?_⟩
      unfold triStep
      rw [hsi, hso, hm]
      simp
  · intro st' sIn sOut hdone
    cases hm : tri_marked env st
    · exfalso
      unfold triStep at hdone
      rw [hsi, hso, hm] at hdone
      simp only [Bool.false_or, Bool.and_self, Bool.false_eq_true,
        if_false] at hdone
      split at hdone <;> simp at hdone
    · unfold triStep at hdone
      rw [hsi, hso, hm] at hdone
      simp only [Bool.false_or, Bool.and_self, if_true,
        TriOutcome.done.injEq] at hdone
      obtain ⟨h1, h2, h3⟩ := hdone
      subst h1
      exact ⟨rfl, rfl, rfl⟩
  · intro nx conv ar cr brinv rr kz x hkz
    simp [gauss_seidel_red_black_local_mode, hkz]

/-- Counterexample for C4 as stated: at `count = 0` the tolerance test
passes at both interfaces, yet the mode is not marked converged (the flags
stay false and the loop continues). -/
theorem convergence_marking_requires_positive_count_counterexample :
    TolMet triEnv0 triState0 ∧
      ∃ st' sIn sOut,
        triStep triEnv0 triState0 triRecv0 = .next st' sIn sOut ∧
          st'.self_in = false ∧ st'.self_out = false := by
  have htol : TolMet triEnv0 triState0 := by
    unfold TolMet get_errors tri_xloc1 tri_xloc2 triEnv0 triState0
    norm_num
  have hm : tri_marked triEnv0 triState0 = false := by
    unfold tri_marked triState0
    norm_num
  refine ⟨htol, tri_nextState triEnv0 triState0 triRecv0,
    tri_sentIn triEnv0 triState0, tri_sentOut triEnv0 triState0, ?_, ?_, ?_⟩
  · unfold triStep
    rw [hm]
    have hsi : triState0.self_in = false := rfl
    have hso : triState0.self_out = false := rfl
    rw [hsi, hso]
    have hmax : ¬(triEnv0.maxits < triState0.count + 1) := by
      unfold triEnv0 triState0
      norm_num
    simp [hmax]
  · unfold tri_nextState
    rw [hm]
    simp [triState0, triRecv0]
  · unfold tri_nextState
    rw [hm]
    simp [triState0, triRecv0]

/-- Witness for C4 at a concrete input with `count = 1`. -/
theorem convergence_marking_criterion_witness :
    triState1.self_in = false ∧ triState1.self_out = false ∧
      ((∃ st' sIn sOut, triStep triEnv0 triState1 triRecv0 = .done st' sIn sOut) ↔
        0 < triState1.count ∧ TolMet triEnv0 triState1) :=
  ⟨rfl, rfl,
    (convergence_marking_criterion triEnv0 triState1 triRecv0 rfl rfl).1⟩

/-! ### Relaying and loop exit in the reduced iteration -/

/-- C6 (amended): in each direction the rank exchanges its convergence flag
and edge value on every pass exactly until that neighbour declares
convergence (afterwards nothing more is sent in that direction), and the
rank leaves the loop exactly when it is converged on both sides — its own
tolerance was met, or a side was frozen earlier by a converged neighbour —
which does not require the neighbours themselves to have converged. -/
theorem relay_and_exit_characterization (env : TriEnv) (st : TriState)
    (recv : TriRecv) :
    (∀ st' sIn sOut,
        triStep env st recv = .next st' sIn sOut ∨
          triStep env st recv = .done st' sIn sOut →
        (sIn = none ↔ st.neighbour_in = true) ∧
          (sOut = none ↔ st.neighbour_out = true) ∧
          sIn = tri_sentIn env st ∧ sOut = tri_sentOut env st) ∧
      ((∃ st' sIn sOut, triStep env st recv = .done st' sIn sOut) ↔
        (st.self_in || tri_marked env st) = true ∧
          (st.self_out || tri_marked env st) = true) := by
  have hsent_in : tri_sentIn env st = none ↔ st.neighbour_in = true := by
    unfold tri_sentIn
    cases h : st.neighbour_in <;> simp
  have hsent_out : tri_sentOut env st = none ↔ st.neighbour_out = true := by
    unfold tri_sentOut
    cases h : st.neighbour_out <;> simp
  constructor
  · intro st' sIn sOut hstep
    have hios : sIn = tri_sentIn env st ∧ sOut = tri_sentOut env st := by
      unfold triStep at hstep
      rcases hstep with h | h
      · split at h
        · simp at h
        · split at h
          · simp at h
          · simp only [TriOutcome.next.injEq] at h
            exact ⟨h.2.1.symm, h.2.2.symm⟩
      · split at h
        · simp only [TriOutcome.done.injEq] at h
          exact ⟨h.2.1.symm, h.2.2.symm⟩
        · split at h <;> simp at h
    obtain ⟨h1, h2⟩ := hios
    subst h1
    subst h2
    exact ⟨hsent_in, hsent_out, rfl, rfl⟩
  · constructor
    · rintro ⟨st', sIn, sOut, hdone⟩
      unfold triStep at hdone
      split at hdone
      · rename_i hcond
        simpa using hcond
      · split at hdone <;> simp at hdone
    · rintro ⟨h1, h2⟩
      have hcond : ((st.self_in || tri_marked env st)
          && (st.self_out || tri_marked env st)) = true := by
        rw [h1, h2]
        rfl
      refine ⟨tri_doneState env st recv, tri_sentIn env st,
        tri_sentOut env st, ?_⟩
      unfold triStep
      rw [if_pos hcond]

/-- Counterexample for C6 as stated: starting from the all-zero state on an
interior rank whose neighbours never declare convergence, the rank meets
its own tolerance on the second pass and leaves the loop with both
neighbour-convergence flags still false — it does not keep relaying until
the neighbours declare convergence, nor does it wait for them to exit. -/
theorem rank_exits_without_neighbour_convergence_counterexample :
    ∃ st', triRun triEnv0 (fun _ => triRecv0) triState0 2 = .done st' ∧
      st'.neighbour_in = false ∧ st'.neighbour_out = false := by
  have hm0 : tri_marked triEnv0 triState0 = false := by
    unfold tri_marked triState0
    norm_num
  have hm1 : tri_marked triEnv0 triState1 = true := by
    rw [tri_marked_iff]
    constructor
    · show 0 < triState1.count
      norm_num [triState1, triState0]
    · unfold TolMet get_errors tri_xloc1 tri_xloc2 triEnv0 triState1 triState0
      norm_num
  have hstep0 : triStep triEnv0 triState0 triRecv0
      = .next (tri_nextState triEnv0 triState0 triRecv0)
          (tri_sentIn triEnv0 triState0) (tri_sentOut triEnv0 triState0) := by
    unfold triStep
    rw [show triState0.self_in = false from rfl,
      show triState0.self_out = false from rfl, hm0]
    have hmax : ¬(triEnv0.maxits < triState0.count + 1) := by
      norm_num [triEnv0, triState0]
    simp [hmax]
  have hnext_eq : tri_nextState triEnv0 triState0 triRecv0 = triState1 := by
    unfold tri_nextState
    rw [hm0]
    unfold tri_xloc1 tri_xloc2 triEnv0 triState1 triState0 triRecv0
    norm_num
  have hstep1 : triStep triEnv0 triState1 triRecv0
      = .done (tri_doneState triEnv0 triState1 triRecv0)
          (tri_sentIn triEnv0 triState1) (tri_sentOut triEnv0 triState1) := by
    unfold triStep
    rw [show triState1.self_in = false from rfl,
      show triState1.self_out = false from rfl, hm1]
    simp
  refine ⟨tri_doneState triEnv0 triState1 triRecv0, ?_, ?_, ?_⟩
  · simp only [triRun, hstep0, hnext_eq, hstep1]
  · simp [tri_doneState, triState1, triState0, triRecv0]
  · simp [tri_doneState, triState1, triState0, triRecv0]

/-- Witness for C6 at a concrete input. -/
theorem relay_and_exit_characterization_witness :
    (∃ st' sIn sOut, triStep triEnv0 triState0 triRecv0 = .done st' sIn sOut) ↔
      (triState0.self_in || tri_marked triEnv0 triState0) = true ∧
        (triState0.self_out || tri_marked triEnv0 triState0) = true :=
  (relay_and_exit_characterization triEnv0 triState0 triRecv0).2

/-! ### Iteration budget handling -/

/-- Counterexample for C3 as stated: in the earlier `LaplaceParallelTri`
iteration, exceeding `maxits` with the mode unconverged makes the loop
`break` normally — the partial iterate is kept and subsequently stored and
returned — with no diagonal-dominance check and no exception. -/
theorem budget_exceeded_returns_partial_counterexample :
    pt0_marked 1 1e-7 1e-20 pt0State0 (fun _ => 1) = false ∧
      pt0Step 1 0 1e-7 1e-20 pt0State0 (fun _ => 1) triRecv0
        = .doneBudget (pt0_budgetState 1 1e-7 1e-20 pt0State0 (fun _ => 1)
            triRecv0) ∧
      (pt0_budgetState 1 1e-7 1e-20 pt0State0 (fun _ => 1) triRecv0).selfLow
        = false := by
  have h01 : List.range 1 = [0] := rfl
  have hea : pt0_error_abs 1 (fun _ => (1 : ℂ)) pt0State0.xk1dlast = 1 := by
    unfold pt0_error_abs pt0State0
    rw [h01]
    simp only [List.foldl_cons, List.foldl_nil]
    norm_num
  have hxmax : pt0_xmax 1 (fun _ => (1 : ℂ)) = 1 := by
    unfold pt0_xmax
    rw [h01]
    simp only [List.foldl_cons, List.foldl_nil]
    norm_num
  have hmarked : pt0_marked 1 1e-7 1e-20 pt0State0 (fun _ => 1) = false := by
    unfold pt0_marked
    rw [hea, hxmax]
    norm_num
  refine ⟨hmarked, ?_, ?_⟩
  · unfold pt0Step
    rw [hmarked, show pt0State0.selfHigh = false from rfl,
      show pt0State0.selfLow = false from rfl]
    have hmax : (0 : ℕ) < pt0State0.count + 1 := by
      norm_num
    simp [hmax]
  · unfold pt0_budgetState
    rw [hmarked]
    simp [pt0State0, triRecv0]

/-- C3 (amended, for `Laplace1DMG::solve`): whenever the pass pushes the
iteration count past `maxits`, the solver either breaks out fully converged
or throws the classified error — it never continues and never returns a
partial solution; the classification is a configuration error exactly when
every rank's coarsest-level system is diagonally dominant (the per-rank
checks combined by the all-reduce), and a no-convergence-guarantee error
otherwise. -/
theorem mg_budget_exceeded_raises_classified_error (env : MGEnv)
    (st : MGState) (h : env.maxits < st.count + 1) :
    ((∃ c, mgStep env st = .finished c) ∨
        mgStep env st = .fail (mg_classify env.max_level env.ranks)) ∧
      ((∀ rk ∈ env.ranks, coarse_rank_is_dd env.max_level rk) →
        mg_classify env.max_level env.ranks = .budgetTooLowDD) ∧
      (¬(∀ rk ∈ env.ranks, coarse_rank_is_dd env.max_level rk) →
        mg_classify env.max_level env.ranks = .noConvergenceGuarantee) := by
  refine ⟨?_, ?_, ?_⟩
  · unfold mgStep
    split
    · right
      unfold mgTail
      rw [if_pos h]
    · split
      · left
        exact ⟨_, rfl⟩
      · split
        · right
          unfold mgTail
          rw [if_pos h]
        · split
          · right
            unfold mgTail
            rw [if_pos h]
          · right
            unfold mgTail
            rw [if_pos h]
  · intro hdd
    unfold mg_classify
    rw [if_pos hdd]
  · intro hdd
    unfold mg_classify
    rw [if_neg hdd]

/-- Witness for the amended C3 at a concrete input. -/
theorem mg_budget_exceeded_raises_classified_error_witness :
    mgEnvW.maxits < mgInit.count + 1 ∧
      ((∃ c, mgStep mgEnvW mgInit = .finished c) ∨
        mgStep mgEnvW mgInit
          = .fail (mg_classify mgEnvW.max_level mgEnvW.ranks)) :=
  ⟨by norm_num [mgEnvW, mgInit],
    (mg_budget_exceeded_raises_classified_error mgEnvW mgInit
      (by norm_num [mgEnvW, mgInit])).1⟩

/-! ### Scheduling of the full convergence check -/

/-- While the loop is still running, not all modes are converged: the entry
state has every mode unconverged, a pass without a full check does not
change the flags, and a pass whose full check converges everything breaks
out of the loop at once. -/
theorem mgRun_running_not_all_converged (env : MGEnv)
    (hmc : 1 ≤ env.max_cycle) (hnm : 1 ≤ env.nmode) :
    ∀ n st, mgRun env n = .running st →
      mg_all_converged env.nmode st.conv = false := by
  intro n
  induction n with
  | zero =>
    intro st h
    simp only [mgRun, MGRunResult.running.injEq] at h
    subst h
    unfold mg_all_converged mgInit
    apply List.all_eq_false.mpr
    refine ⟨0, ?_, by simp⟩
    simp only [List.mem_range]
    omega
  | succ n ih =>
    intro st' h
    simp only [mgRun] at h
    cases hrun : mgRun env n with
    | running st =>
      rw [hrun] at h
      simp only [mgRunStep] at h
      cases hstep : mgStep env st with
      | next s2 =>
        rw [hstep] at h
        simp only [MGRunResult.running.injEq] at h
        subst h
        have hconv2 : s2.conv = mg_conv_after env st ∧
            (¬(mg_all_converged env.nmode (mg_conv_after env st) = true ∧
              st.level = 0) ∨ ¬mg_full_check_runs env st) := by
          unfold mgStep at hstep
          by_cases hb : env.maxits < st.count + 1
          · exfalso
            split at hstep
            · unfold mgTail at hstep
              rw [if_pos hb] at hstep
              simp at hstep
            · split at hstep
              · simp at hstep
              · split at hstep
                · unfold mgTail at hstep
                  rw [if_pos hb] at hstep
                  simp at hstep
                · split at hstep
                  · unfold mgTail at hstep
                    rw [if_pos hb] at hstep
                    simp at hstep
                  · unfold mgTail at hstep
                    rw [if_pos hb] at hstep
                    simp at hstep
          · split at hstep
            · rename_i h1
              have hnc : ¬mg_full_check_runs env st := by
                rintro ⟨⟨hl, hs⟩, -⟩
                omega
              unfold mgTail at hstep
              rw [if_neg hb] at hstep
              simp only [MGOutcome.next.injEq] at hstep
              subst hstep
              exact ⟨rfl, Or.inr hnc⟩
            · split at hstep
              · simp at hstep
              · rename_i h1 h2
                split at hstep
                · unfold mgTail at hstep
                  rw [if_neg hb] at hstep
                  simp only [MGOutcome.next.injEq] at hstep
                  subst hstep
                  exact ⟨rfl, Or.inl h2⟩
                · split at hstep
                  · unfold mgTail at hstep
                    rw [if_neg hb] at hstep
                    simp only [MGOutcome.next.injEq] at hstep
                    subst hstep
                    exact ⟨rfl, Or.inl h2⟩
                  · unfold mgTail at hstep
                    rw [if_neg hb] at hstep
                    simp only [MGOutcome.next.injEq] at hstep
                    subst hstep
                    exact ⟨rfl, Or.inl h2⟩
        obtain ⟨hc, hrest⟩ := hconv2
        rw [hc]
        rcases hrest with hna | hnr
        · by_cases hfc : mg_full_check_runs env st
          · have hl0 : st.level = 0 := hfc.1.1
            cases hb : mg_all_converged env.nmode (mg_conv_after env st)
            · rfl
            · exact absurd ⟨hb, hl0⟩ hna
          · have heq : mg_conv_after env st = st.conv := by
              unfold mg_conv_after
              rw [if_neg hfc]
            rw [heq]
            exact ih st hrun
        · have heq : mg_conv_after env st = st.conv := by
            unfold mg_conv_after
            rw [if_neg hnr]
          rw [heq]
          exact ih st hrun
      | finished c =>
        rw [hstep] at h
        simp at h
      | fail cls =>
        rw [hstep] at h
        simp at h
    | finished c =>
      rw [hrun] at h
      simp [mgRunStep] at h
    | failed cls =>
      rw [hrun] at h
      simp [mgRunStep] at h

/-- C7: the convergence predictor suppresses the full (collective) check
only between the calibration cycles and the predicted convergence cycle
(`3 ≤ cyclecount` and `cyclecount ≤ cycle_eta - 5`); the check runs
unconditionally in the first cycles and on every cycle when `predict_exit`
is off; and the loop never exits in a pass in which the full check did not
run, because modes are marked converged only inside that check. -/
theorem full_check_scheduling_and_exit (env : MGEnv)
    (hmc : 1 ≤ env.max_cycle) (hnm : 1 ≤ env.nmode) :
    (∀ st, env.predict_exit = false → mg_check_point env st →
        mg_full_check_runs env st) ∧
      (∀ st, mg_check_point env st → mg_cc env st < 3 →
        mg_full_check_runs env st) ∧
      (∀ st, mg_check_point env st → ¬mg_full_check_runs env st →
        env.predict_exit = true ∧ 3 ≤ mg_cc env st ∧
          (mg_cc env st : ℤ) ≤ st.cycle_eta - 5) ∧
      ∀ n st c, mgRun env n = .running st → mgRun env (n + 1) = .finished c →
        mg_full_check_runs env st := by
  refine ⟨?_, ?_, ?_, ?_⟩
  · intro st hpe hcp
    exact ⟨hcp, Or.inr (Or.inr hpe)⟩
  · intro st hcp hcc
    exact ⟨hcp, Or.inl hcc⟩
  · intro st hcp hnr
    rw [mg_full_check_runs, not_and_or] at hnr
    rcases hnr with hnr | hnr
    · exact absurd hcp hnr
    · push_neg at hnr
      obtain ⟨h1, h2, h3⟩ := hnr
      refine ⟨?_, by omega, h2⟩
      cases hb : env.predict_exit
      · exact absurd hb h3
      · rfl
  · intro n st c hrun hfin
    simp only [mgRun] at hfin
    rw [hrun] at hfin
    simp only [mgRunStep] at hfin
    cases hstep : mgStep env st with
    | next s2 =>
      rw [hstep] at hfin
      simp at hfin
    | fail cls =>
      rw [hstep] at hfin
      simp at hfin
    | finished c2 =>
      unfold mgStep at hstep
      split at hstep
      · unfold mgTail at hstep
        split at hstep <;> simp at hstep
      · split at hstep
        · rename_i hcond
          by_contra hnr
          have hcv : mg_conv_after env st = st.conv := by
            unfold mg_conv_after
            rw [if_neg hnr]
          rw [hcv] at hcond
          have hall := mgRun_running_not_all_converged env hmc hnm n st hrun
          rw [hcond.1] at hall
          exact Bool.noConfusion hall
        · split at hstep
          · unfold mgTail at hstep
            by_cases hb : env.maxits < st.count + 1
            · rw [if_pos hb] at hstep
              simp at hstep
            · rw [if_neg hb] at hstep
              simp at hstep
          · split at hstep
            · unfold mgTail at hstep
              by_cases hb : env.maxits < st.count + 1
              · rw [if_pos hb] at hstep
                simp at hstep
              · rw [if_neg hb] at hstep
                simp at hstep
            · unfold mgTail at hstep
              by_cases hb : env.maxits < st.count + 1
              · rw [if_pos hb] at hstep
                simp at hstep
              · rw [if_neg hb] at hstep
                simp at hstep

/-- Witness for C7 at a concrete input. -/
theorem full_check_scheduling_and_exit_witness :
    1 ≤ mgEnvW.max_cycle ∧ 1 ≤ mgEnvW.nmode ∧
      ∀ st, mgEnvW.predict_exit = false → mg_check_point mgEnvW st →
        mg_full_check_runs mgEnvW st :=
  ⟨by norm_num [mgEnvW], by norm_num [mgEnvW],
    (full_check_scheduling_and_exit mgEnvW (by norm_num [mgEnvW])
      (by norm_num [mgEnvW])).1⟩
